import Mathlib

/-!
Verification development for the stock-data ingestion / storage / validation
pipeline (`data_fetcher.py`, `data_storage.py`, `data_validator.py`, `main.py`).

The SQLite table `stock_daily` is modelled as a list of rows; machine floats
(SQLite REAL) are modelled as exact rationals, which is adequate because the
program only ever compares these values, never does arithmetic on them;
nullable columns are `Option`-valued.  Timestamps (`CURRENT_TIMESTAMP`) are
modelled as a `Nat` clock value supplied to each operation.  Fallible
operations return `Except` / a success flag, and environment-driven failures
(a chunk commit failing, a provider call raising) are supplied as explicit
oracles, so every definition is executable.
-/

namespace StockPipeline

/-- Canonical formatted record produced by `format_data_for_storage`
(`data_fetcher.py`): after the final `dropna()` every field is non-null,
so all fields are plain values.  Field order follows the tuple built in
`save_data` (`data_storage.py` lines 121-131). -/
structure Bar where
  ts_code : String
  trade_date : String
  open_ : ℚ
  high : ℚ
  low : ℚ
  close : ℚ
  volume : ℚ
  amount : ℚ
  deriving DecidableEq, Repr

/-- Stored row of the `stock_daily` table (`init_database`,
`data_storage.py` lines 42-57).  `ts_code` and `trade_date` are `NOT NULL`;
the six numeric columns are nullable REAL; `created_at` / `updated_at` are
timestamps.  The `id` autoincrement column carries no information the claims
mention and is omitted. -/
structure Row where
  ts_code : String
  trade_date : String
  open_ : Option ℚ
  high : Option ℚ
  low : Option ℚ
  close : Option ℚ
  volume : Option ℚ
  amount : Option ℚ
  created_at : Nat
  updated_at : Nat
  deriving DecidableEq, Repr

/-- Key of the `UNIQUE(ts_code, trade_date)` constraint. -/
def rowKey (r : Row) : String × String := (r.ts_code, r.trade_date)

/-- Key of a formatted record. -/
def barKey (b : Bar) : String × String := (b.ts_code, b.trade_date)

/-- Persistent state: the `stock_daily` table plus the backup-marker file
`.data_backup_flag` (timestamp and record count; `none` if the file was
never written). -/
structure Store where
  table : List Row
  marker : Option (Nat × Nat)
  deriving DecidableEq, Repr

/-- Rows of the table that survive `DELETE`-ing every row with key `k`;
SQLite `INSERT OR REPLACE` deletes all rows conflicting on the unique key
before inserting the fresh one. -/
def eraseKey (tbl : List Row) (k : String × String) : List Row :=
  tbl.filter fun r => decide (rowKey r ≠ k)

/-- Fresh row inserted by the `INSERT OR REPLACE` statement of `save_data`:
`updated_at` is set to `CURRENT_TIMESTAMP` explicitly, and `created_at`
takes its column `DEFAULT CURRENT_TIMESTAMP` because the insert column list
omits it — also on the replace path, where the old row has been deleted. -/
def mkRow (b : Bar) (now : Nat) : Row :=
  { ts_code := b.ts_code, trade_date := b.trade_date,
    open_ := some b.open_, high := some b.high, low := some b.low,
    close := some b.close, volume := some b.volume, amount := some b.amount,
    created_at := now, updated_at := now }

/-- Effect of `INSERT OR REPLACE` for one record: delete every row with the
same `(ts_code, trade_date)` key, then insert the fresh row. -/
def upsertRow (tbl : List Row) (b : Bar) (now : Nat) : List Row :=
  eraseKey tbl (barKey b) ++ [mkRow b now]

/-- Effect of `cursor.executemany(insert_sql, batch)`: the records of the
batch are upserted in order. -/
def applyBatch (tbl : List Row) (batch : List Bar) (now : Nat) : List Row :=
  batch.foldl (fun t b => upsertRow t b now) tbl

/-- First stored row with the given key (the unique one, under the table's
key-uniqueness invariant). -/
def findRow (tbl : List Row) (k : String × String) : Option Row :=
  tbl.find? fun r => decide (rowKey r = k)

/-- Key-membership: some stored row has key `k`. -/
def keyMem (tbl : List Row) (k : String × String) : Prop :=
  ∃ r ∈ tbl, rowKey r = k

instance (tbl : List Row) (k : String × String) : Decidable (keyMem tbl k) := by
  unfold keyMem; infer_instance

/-- Key-uniqueness invariant maintained by `UNIQUE(ts_code, trade_date)`. -/
def NodupKeys (tbl : List Row) : Prop := (tbl.map rowKey).Nodup

instance (tbl : List Row) : Decidable (NodupKeys tbl) := by
  unfold NodupKeys; infer_instance

/-- Chunking of `records` by the Python loop
`for i in range(0, total, batch_size): batch = records[i:i+batch_size]`
(`save_data`, `data_storage.py`).  The fuel argument bounds the number of
loop iterations; `l.length` iterations always suffice when the step is
positive. -/
def chunksOfAux (n : Nat) : Nat → List Bar → List (List Bar)
  | 0, _ => []
  | _, [] => []
  | fuel + 1, l => l.take n :: chunksOfAux n fuel (l.drop n)

/-- Partition of the records into chunks of at most `n`. -/
def chunksOf (n : Nat) (l : List Bar) : List (List Bar) :=
  chunksOfAux n l.length l

/-- Chunk-commit loop of `save_data`: chunk `i` is `executemany`-applied and
committed; the oracle `fails i = true` means the commit of chunk `i` raises,
in which case `conn.rollback()` discards only that uncommitted chunk
(earlier chunks are already committed) and the exception propagates —
returned here as the `false` flag.  No later chunk is attempted. -/
def runChunks (now : Nat) (fails : Nat → Bool) :
    List (List Bar) → Nat → List Row → List Row × Bool
  | [], _, tbl => (tbl, true)
  | c :: cs, i, tbl =>
      if fails i then (tbl, false)
      else runChunks now fails cs (i + 1) (applyBatch tbl c now)

/-- `save_data(df, batch_size)` (`data_storage.py` lines 104-164):
an empty batch returns immediately ("没有数据需要保存") touching nothing;
otherwise the records are chunked, each chunk committed separately, and on
full success the backup-marker file is overwritten with the current
timestamp and the total record count.  The `Bool` result is `true` on normal
return and `false` when the exception propagated to the caller. -/
def save_data (now : Nat) (fails : Nat → Bool) (batch_size : Nat)
    (bars : List Bar) (st : Store) : Store × Bool :=
  if bars.isEmpty then (st, true)
  else
    match runChunks now fails (chunksOf batch_size bars) 0 st.table with
    | (tbl, true) => ({ table := tbl, marker := some (now, bars.length) }, true)
    | (tbl, false) => ({ table := tbl, marker := st.marker }, false)

/-! ### Fetcher (`data_fetcher.py`) -/

/-- Provider-native date cell (the `日期` column).  `pd.to_datetime` on the
column either parses every value (re-serialized by `strftime` to the 8-digit
form, modelled by `valid`), propagates a missing cell as `NaT` (modelled by
`missing`, which `strftime` turns back into a null that `dropna` removes),
or raises on an unparseable value (modelled by `invalid`). -/
inductive DateCell where
  | missing
  | valid (yyyymmdd : String)
  | invalid
  deriving DecidableEq, Repr

/-- Provider-native numeric cell.  `pd.to_numeric(col, errors := coerce)`
maps a missing cell or a non-numeric value to null and keeps numeric
values, so a cell either is absent, holds a value that fails coercion, or
holds a number. -/
inductive RawCell where
  | missing
  | uncoercible
  | num (q : ℚ)
  deriving DecidableEq, Repr

/-- Raw row of the provider table after `fetch_stock_daily_data` verified
that all seven required columns (`日期/开盘/收盘/最高/最低/成交量/成交额`)
are present; `gupiao` is the `股票代码` column the fetcher appends
(`none` until it does). -/
structure RawRow where
  riqi : DateCell
  gupiao : Option String
  kaipan : RawCell
  shoupan : RawCell
  zuigao : RawCell
  zuidi : RawCell
  chengjiaoliang : RawCell
  chengjiaoe : RawCell
  deriving DecidableEq, Repr

/-- Provider response table: the rows plus whether all seven required
columns were present in the response. -/
structure ProviderTable where
  cols_complete : Bool
  rows : List RawRow
  deriving DecidableEq, Repr

/-- Outcome of the underlying `ak.stock_zh_a_hist` call: the call can raise
(transport/timeout error) or return a possibly absent table. -/
inductive ProviderOutcome where
  | throws (msg : String)
  | returns (t : Option ProviderTable)
  deriving DecidableEq, Repr

/-- `fetch_stock_daily_data(stock_code, start, end)` (`data_fetcher.py`
lines 38-89).  Every exception of the provider call is caught by the
enclosing `try`, logged as a warning, and turned into `None`; an absent or
empty response is `None` ("没有数据"); an incomplete column set is `None`
("数据列不完整"); otherwise the `股票代码` column is added and the rows are
returned. -/
def fetch_stock_daily_data (stock_code : String) (res : ProviderOutcome) :
    Option (List RawRow) :=
  match res with
  | .throws _ => none
  | .returns none => none
  | .returns (some t) =>
      if t.rows.isEmpty then none
      else if t.cols_complete then
        some (t.rows.map fun r => { r with gupiao := some stock_code })
      else none

/-- Observable events of a fetch loop: a per-instrument fetch, and a
`time.sleep(delay)` rate-limit pause. -/
inductive Ev where
  | fetchEv (code : String)
  | sleepEv (secs : ℚ)
  deriving DecidableEq, Repr

/-- Whether an event is a rate-limit pause. -/
def Ev.isSleep : Ev → Bool
  | .sleepEv _ => true
  | _ => false

/-- Per-instrument loop of `fetch_all_stock_data` (`data_fetcher.py` lines
118-137): fetch each instrument, collect non-empty results, and after each
iteration `if delay > 0: time.sleep(delay)`.  The instrument list comes from
`get_all_stock_codes()`; the provider is abstracted as a per-code outcome.
Returns the concatenated raw rows and the event trace. -/
def fetch_all_stock_data (provider : String → ProviderOutcome) (delay : ℚ) :
    List String → List RawRow × List Ev
  | [] => ([], [])
  | c :: cs =>
      let here := fetch_stock_daily_data c (provider c)
      let rest := fetch_all_stock_data provider delay cs
      ((match here with
        | some rows => rows ++ rest.1
        | none => rest.1),
       Ev.fetchEv c :: ((if 0 < delay then [Ev.sleepEv delay] else []) ++ rest.2))

/-! ### Formatter (`data_fetcher.py`, `format_data_for_storage`) -/

/-- Numeric coercion of one cell, `pd.to_numeric(col, errors := coerce)`:
missing and uncoercible cells become null. -/
def toNumeric : RawCell → Option ℚ
  | .missing => none
  | .uncoercible => none
  | .num q => some q

/-- Date column conversion
`pd.to_datetime(col).dt.strftime(%Y%m%d)`: a missing cell round-trips to
null, a parseable date to its 8-digit string, and an unparseable value makes
`pd.to_datetime` raise, which aborts the whole call. -/
def convertDate : DateCell → Except Unit (Option String)
  | .missing => .ok none
  | .valid s => .ok (some s)
  | .invalid => .error ()

/-- Row-level effect of `format_data_for_storage`: rename the columns to the
canonical schema, convert the date, coerce the numeric columns, and let the
final `dropna()` discard the row when any resulting field is null.
`.error` propagates a date-conversion exception of the whole call. -/
def formatRow (r : RawRow) : Except Unit (Option Bar) :=
  match convertDate r.riqi with
  | .error e => .error e
  | .ok d =>
      .ok (match d, r.gupiao, toNumeric r.kaipan, toNumeric r.shoupan,
             toNumeric r.zuigao, toNumeric r.zuidi,
             toNumeric r.chengjiaoliang, toNumeric r.chengjiaoe with
        | some dd, some code, some o, some c, some h, some l, some v, some a =>
            some { ts_code := code, trade_date := dd, open_ := o, high := h,
                   low := l, close := c, volume := v, amount := a }
        | _, _, _, _, _, _, _, _ => none)

/-- `format_data_for_storage(df)` (`data_fetcher.py` lines 151-198): an
empty input yields an empty output; otherwise each row is renamed, its date
converted (an unparseable date raises out of the call), its numeric fields
coerced, and `dropna()` keeps exactly the rows with no null field. -/
def format_data_for_storage : List RawRow → Except Unit (List Bar)
  | [] => .ok []
  | r :: rs =>
      match formatRow r, format_data_for_storage rs with
      | .error e, _ => .error e
      | _, .error e => .error e
      | .ok none, .ok rest => .ok rest
      | .ok (some b), .ok rest => .ok (b :: rest)

/-- Specification-side normalization of one row, written from the claim's
words: the row is kept as a canonical record exactly when every required
field is present, numeric coercion succeeds on the numeric fields, and no
field is null after coercion; otherwise it is dropped (`none`). -/
def formatSpecRow (r : RawRow) : Option Bar :=
  match r.riqi, r.gupiao, toNumeric r.kaipan, toNumeric r.shoupan,
      toNumeric r.zuigao, toNumeric r.zuidi,
      toNumeric r.chengjiaoliang, toNumeric r.chengjiaoe with
  | .valid dd, some code, some o, some c, some h, some l, some v, some a =>
      some { ts_code := code, trade_date := dd, open_ := o, high := h,
             low := l, close := c, volume := v, amount := a }
  | _, _, _, _, _, _, _, _ => none

/-- Specification-side normalization of a table: drop exactly the defective
rows, keep all others. -/
def formatSpec (rows : List RawRow) : List Bar :=
  rows.filterMap formatSpecRow

/-! ### Storage queries and the incremental planner (`data_storage.py`) -/

/-- Lexicographic string comparison, via the character list underlying the
string — the order both SQLite (on these ASCII `TEXT` dates) and Python use;
`String`'s `<` is this very relation on `data`. -/
def strLt (a b : String) : Bool :=
  decide (a.data < b.data)

/-- Lexicographic `≤` on strings. -/
def strLe (a b : String) : Bool :=
  decide (a.data ≤ b.data)

/-- SQL `MAX(trade_date)` over a list of rows (dates compared as strings,
exactly as SQLite compares the `TEXT` column); `none` on the empty list. -/
def maxDate : List Row → Option String
  | [] => none
  | r :: rs =>
      match maxDate rs with
      | none => some r.trade_date
      | some d => some (if strLt d r.trade_date then r.trade_date else d)

/-- SQL `MIN(trade_date)`; `none` on the empty list. -/
def minDate : List Row → Option String
  | [] => none
  | r :: rs =>
      match minDate rs with
      | none => some r.trade_date
      | some d => some (if strLt r.trade_date d then r.trade_date else d)

/-- `get_latest_date_for_stock(ts_code)` (`data_storage.py` lines 167-191):
`SELECT MAX(trade_date) FROM stock_daily WHERE ts_code = ?`, with `NULL`
(no rows) reported as `None`. -/
def get_latest_date_for_stock (tbl : List Row) (ts_code : String) : Option String :=
  maxDate (tbl.filter fun r => decide (r.ts_code = ts_code))

/-- `get_all_stock_codes_from_db()` (`data_storage.py` lines 194-208):
`SELECT DISTINCT ts_code FROM stock_daily ORDER BY ts_code` — the distinct
codes in ascending order. -/
def get_all_stock_codes_from_db (tbl : List Row) : List String :=
  ((tbl.map fun r => r.ts_code).dedup).insertionSort (fun a b => strLe a b = true)

/-- Per-instrument window decision inside the `update_incremental_data` loop
(`data_storage.py` lines 240-253): with `latest` the stored maximum trade
date, fetch `[latest, end_date]` when `latest < start_date`, skip (`none`)
when `latest ≥ start_date`, and fetch `[start_date, end_date]` when nothing
is stored.  Here `start_date = today - days` and `end_date = today` as
computed at lines 227-229. -/
def plan_fetch_window (latest : Option String) (start_date end_date : String) :
    Option (String × String) :=
  match latest with
  | some d => if strLt d start_date then some (d, end_date) else none
  | none => some (start_date, end_date)

/-! ### Validator (`data_validator.py`) -/

/-- Structured counterpart of the validator's finding messages.  The source
reports findings as Chinese strings and tags the blocking ones with the
substring `【严重】`; each constructor stands for one message shape, carrying
the count it interpolates.  `checkFailed` is the except-branch message
`"校验过程出错：{str(e)}"` with the stringified exception. -/
inductive Finding where
  | dbMissing
  | tableMissing
  | noData
  | nullKeys (n : Nat)
  | dupKeys (n : Nat)
  | badDates (n : Nat)
  | nonPositivePrice (n : Nat)
  | highBelowLow (n : Nat)
  | extremePrice (n : Nat)
  | negVolume (n : Nat)
  | negAmount (n : Nat)
  | lowRecordStocks (n : Nat)
  | futureDates (n : Nat)
  | checkFailed (exc : String)
  deriving DecidableEq, Repr

/-- Whether the finding's message carries the `【严重】` tag;
`check_data_correctness` tags exactly the non-positive-price and
high-below-low messages. -/
def Finding.severe : Finding → Bool
  | .nonPositivePrice _ => true
  | .highBelowLow _ => true
  | _ => false

/-- The `statistics` dict of the report; every key is optional because the
dict is filled incrementally (`none` = key absent). -/
structure Stats where
  total_records : Option Nat := none
  stock_count : Option Nat := none
  date_range : Option (Option String × Option String) := none
  avg_records_per_day : Option ℚ := none
  completeness_percentage : Option ℚ := none
  deriving DecidableEq, Repr

/-- The `results` dict returned by `validate_data`. -/
structure Report where
  is_valid : Bool
  errors : List Finding
  warnings : List Finding
  statistics : Stats
  deriving DecidableEq, Repr

/-- SQL comparison `x <= 0` under `NULL` semantics: false when null. -/
def sqlLeZero : Option ℚ → Bool
  | some v => decide (v ≤ 0)
  | none => false

/-- SQL comparison `x < 0` under `NULL` semantics. -/
def sqlLtZero : Option ℚ → Bool
  | some v => decide (v < 0)
  | none => false

/-- SQL comparison `x < c` under `NULL` semantics. -/
def sqlLt (x : Option ℚ) (c : ℚ) : Bool :=
  match x with
  | some v => decide (v < c)
  | none => false

/-- SQL comparison `x > c` under `NULL` semantics. -/
def sqlGt (x : Option ℚ) (c : ℚ) : Bool :=
  match x with
  | some v => decide (c < v)
  | none => false

/-- `WHERE open <= 0 OR high <= 0 OR low <= 0 OR close <= 0`. -/
def priceNonPos (r : Row) : Bool :=
  sqlLeZero r.open_ || sqlLeZero r.high || sqlLeZero r.low || sqlLeZero r.close

/-- `WHERE high < low` (false when either side is null). -/
def highLtLow (r : Row) : Bool :=
  match r.high, r.low with
  | some h, some l => decide (h < l)
  | _, _ => false

/-- The SQL literal `0.01` (one hundredth), written in lowest terms. -/
def lowerBand : ℚ := ⟨1, 100, by norm_num, Nat.coprime_one_left 100⟩

/-- `WHERE open > 10000 OR ... OR close < 0.01` — the plausible-band check. -/
def priceExtreme (r : Row) : Bool :=
  sqlGt r.open_ 10000 || sqlGt r.high 10000 || sqlGt r.low 10000 || sqlGt r.close 10000 ||
  sqlLt r.open_ lowerBand || sqlLt r.high lowerBand || sqlLt r.low lowerBand ||
  sqlLt r.close lowerBand

/-- Trade date malformed: `LENGTH(trade_date) != 8 OR trade_date NOT GLOB`
the eight-digit pattern. -/
def badDate (r : Row) : Bool :=
  decide (r.trade_date.length ≠ 8) || !(r.trade_date.data.all Char.isDigit)

/-- Number of `(ts_code, trade_date)` groups holding more than one row
(`GROUP BY ... HAVING cnt > 1`). -/
def dupKeyGroupCount (rows : List Row) : Nat :=
  (((rows.map rowKey).dedup).filter fun k =>
    decide (1 < (rows.filter fun r => decide (rowKey r = k)).length)).length

/-- `check_data_integrity` (`data_validator.py` lines 107-150).  The null
key-field probe (`ts_code IS NULL OR trade_date IS NULL`) always counts zero
because both columns are `NOT NULL` in the schema, so it contributes no
finding and is elided here; the duplicate-key and date-format probes follow
it in order. -/
def check_data_integrity (rows : List Row) : List Finding :=
  (if 0 < dupKeyGroupCount rows then [Finding.dupKeys (dupKeyGroupCount rows)] else []) ++
  (let bad := (rows.filter badDate).length
   if 0 < bad then [Finding.badDates bad] else [])

/-- `check_data_correctness` (`data_validator.py` lines 153-216): the five
probes in source order; the first two messages carry the `【严重】` tag. -/
def check_data_correctness (rows : List Row) : List Finding :=
  (let n := (rows.filter priceNonPos).length
   if 0 < n then [Finding.nonPositivePrice n] else []) ++
  (let n := (rows.filter highLtLow).length
   if 0 < n then [Finding.highBelowLow n] else []) ++
  (let n := (rows.filter priceExtreme).length
   if 0 < n then [Finding.extremePrice n] else []) ++
  (let n := (rows.filter fun r => sqlLtZero r.volume).length
   if 0 < n then [Finding.negVolume n] else []) ++
  (let n := (rows.filter fun r => sqlLtZero r.amount).length
   if 0 < n then [Finding.negAmount n] else [])

/-- `check_data_consistency` (`data_validator.py` lines 219-252): instruments
with fewer than 10 rows, and trade dates later than today. -/
def check_data_consistency (rows : List Row) (today : String) : List Finding :=
  (let n := (((rows.map fun r => r.ts_code).dedup).filter fun c =>
      decide ((rows.filter fun r => decide (r.ts_code = c)).length < 10)).length
   if 0 < n then [Finding.lowRecordStocks n] else []) ++
  (let n := (rows.filter fun r => strLt today r.trade_date).length
   if 0 < n then [Finding.futureDates n] else [])

/-- Count of rows with all six numeric fields populated (the completeness
probe of `get_detailed_statistics`). -/
def completeCount (rows : List Row) : Nat :=
  (rows.filter fun r =>
    r.open_.isSome && r.high.isSome && r.low.isSome &&
    r.close.isSome && r.volume.isSome && r.amount.isSome).length

/-- `get_detailed_statistics` (`data_validator.py` lines 255-295).  The
function fills a fresh local `stats` dict with `stock_count` and
`date_range`, then reads `stats[total_records]` — a key this local dict
never sets (only the caller's `results[statistics]` has it) — so both the
average-per-day branch (taken whenever some trade date exists) and the
completeness branch raise `KeyError: total_records`. -/
def get_detailed_statistics (rows : List Row) : Except String Stats :=
  let s1 : Stats := { stock_count := some ((rows.map fun r => r.ts_code).dedup).length,
                      date_range := some (minDate rows, maxDate rows) }
  let distinct_dates := ((rows.map fun r => r.trade_date).dedup).length
  if 0 < distinct_dates then
    match s1.total_records with
    | none => .error "KeyError: total_records"
    | some t =>
        let s2 := { s1 with avg_records_per_day := some ((t : ℚ) / (distinct_dates : ℚ)) }
        match s2.total_records with
        | none => .error "KeyError: total_records"
        | some t2 =>
            if 0 < t2 then
              .ok { s2 with
                    completeness_percentage := some ((completeCount rows : ℚ) / (t2 : ℚ) * 100) }
            else .ok s2
  else
    match s1.total_records with
    | none => .error "KeyError: total_records"
    | some t2 =>
        if 0 < t2 then
          .ok { s1 with
                completeness_percentage := some ((completeCount rows : ℚ) / (t2 : ℚ) * 100) }
        else .ok s1

/-- Injected environment fault: which internal check's database access
raises (modelling e.g. a cursor failure inside that check); `none` injects
nothing.  The statistics step needs no injection — it fails on its own. -/
inductive FaultAt where
  | integrity
  | correctness
  | consistency
  deriving DecidableEq, Repr

/-- `validate_data()` (`data_validator.py` lines 25-104).  `dbExists` and
`tableExists` model the `os.path.exists` and `sqlite_master` probes; `rows`
is the stored table; `fault` injects an exception into one of the first
three check functions.  Any exception inside the `try` is caught by the
final `except`, which records `is_valid := false` and appends the
`checkFailed` message, leaving previously accumulated warnings, errors and
statistics in place. -/
def validate_data (dbExists tableExists : Bool) (rows : List Row)
    (today : String) (fault : Option FaultAt) : Report :=
  if dbExists = false then
    { is_valid := false, errors := [.dbMissing], warnings := [], statistics := {} }
  else if tableExists = false then
    { is_valid := false, errors := [.tableMissing], warnings := [], statistics := {} }
  else if rows.length = 0 then
    { is_valid := false, errors := [.noData], warnings := [], statistics := {} }
  else
    let stats0 : Stats := { total_records := some rows.length }
    if fault = some FaultAt.integrity then
      { is_valid := false, errors := [.checkFailed "integrity"],
        warnings := [], statistics := stats0 }
    else
      let integ := check_data_integrity rows
      if fault = some FaultAt.correctness then
        { is_valid := false, errors := [.checkFailed "correctness"],
          warnings := integ, statistics := stats0 }
      else
        let corr := check_data_correctness rows
        let severe := corr.filter Finding.severe
        if fault = some FaultAt.consistency then
          { is_valid := false, errors := severe ++ [.checkFailed "consistency"],
            warnings := integ ++ corr, statistics := stats0 }
        else
          let consis := check_data_consistency rows today
          match get_detailed_statistics rows with
          | .error msg =>
              { is_valid := false, errors := severe ++ [.checkFailed msg],
                warnings := integ ++ corr ++ consis, statistics := stats0 }
          | .ok s =>
              { is_valid := severe.isEmpty, errors := severe,
                warnings := integ ++ corr ++ consis,
                statistics := { s with total_records := stats0.total_records } }

/-! ### Incremental update (`data_storage.py`) and the daily job (`main.py`) -/

/-- Result of `update_incremental_data`: the persistent state after the
call, the outcome (`ok b` = the function returned `b`; `error` = an
exception — in this code path only the `save_data` failure — propagated to
the caller), and the per-instrument fetch/sleep event trace. -/
structure UpdRes where
  st : Store
  outcome : Except Unit Bool
  events : List Ev
  deriving Repr

/-- Per-instrument loop of `update_incremental_data` (`data_storage.py`
lines 240-268): consult the stored latest date, plan the window, fetch
(emitting a fetch event — the loop contains no `time.sleep`), format, and
collect the non-empty formatted batches in loop order.  The loop's
`try/except` catches a per-instrument failure (here: a formatting
exception) by skipping that instrument.  The provider is abstracted as a
function of the code and the window. -/
def updLoop (provider : String → String → String → ProviderOutcome)
    (tbl : List Row) (start_date end_date : String) :
    List String → List Bar × List Ev
  | [] => ([], [])
  | c :: cs =>
      let rest := updLoop provider tbl start_date end_date cs
      match plan_fetch_window (get_latest_date_for_stock tbl c) start_date end_date with
      | none => rest
      | some (fs, fe) =>
          let bars :=
            match fetch_stock_daily_data c (provider c fs fe) with
            | none => []
            | some rows =>
                match format_data_for_storage rows with
                | .error _ => []
                | .ok fl => fl
          (bars ++ rest.1, Ev.fetchEv c :: rest.2)

/-- `update_incremental_data(fetch_function, days)` (`data_storage.py` lines
211-268).  Returns `false` when the database file is missing or holds no
codes; otherwise it walks the stored codes in ascending order, concatenates
the fetched-and-formatted records, and — only when something was collected —
saves them with the default batch size 1000.  The `fetch_function` argument
of the source is ignored there (the loop imports and calls
`fetch_stock_daily_data` directly); a `save_data` failure propagates out of
the function, every earlier committed chunk remaining stored. -/
def update_incremental_data (provider : String → String → String → ProviderOutcome)
    (dbExists : Bool) (now : Nat) (saveFails : Nat → Bool) (st : Store)
    (start_date end_date : String) : UpdRes :=
  if dbExists = false then ⟨st, .ok false, []⟩
  else
    let codes := get_all_stock_codes_from_db st.table
    if codes.isEmpty then ⟨st, .ok false, []⟩
    else
      let collected := updLoop provider st.table start_date end_date codes
      if collected.1.isEmpty then ⟨st, .ok false, collected.2⟩
      else
        match save_data now saveFails 1000 collected.1 st with
        | (st2, true) => ⟨st2, .ok true, collected.2⟩
        | (st2, false) => ⟨st2, .error (), collected.2⟩

/-- `daily_job()` (`main.py` lines 17-36).  The single `try` block runs the
incremental update and then the validation; its `except` only logs.  So the
job itself never propagates an exception, and the validation report
(`validate_data` + `print_validation_report`) is produced exactly when the
update step did not raise: the first component is `some report` when the
validator ran and `none` when the exception skipped it. -/
def daily_job (provider : String → String → String → ProviderOutcome)
    (dbExists tableExists : Bool) (now : Nat) (saveFails : Nat → Bool)
    (st : Store) (start_date end_date today : String) : Option Report × Store :=
  let u := update_incremental_data provider dbExists now saveFails st start_date end_date
  match u.outcome with
  | .error _ => (none, u.st)
  | .ok _ => (some (validate_data dbExists tableExists u.st.table today none), u.st)

/-! ### Auxiliary definitions for the statements -/

/-- Timestamp-free projection of a stored row: the key plus the six data
fields, excluding `created_at` and `updated_at`. -/
def dataOf (r : Row) :
    String × String × Option ℚ × Option ℚ × Option ℚ × Option ℚ × Option ℚ × Option ℚ :=
  (r.ts_code, r.trade_date, r.open_, r.high, r.low, r.close, r.volume, r.amount)

/-- Last record of the batch carrying the given key (the one whose upsert
wins), `none` if the batch never mentions the key. -/
def lastBarWithKey (k : String × String) : List Bar → Option Bar
  | [] => none
  | b :: bs =>
      match lastBarWithKey k bs with
      | some x => some x
      | none => if barKey b = k then some b else none

/-! ### Concrete inputs used by witnesses and counterexamples -/

/-- Sample formatted record. -/
def c1bar : Bar := ⟨"000001", "20240101", 10, 11, 9, 10, 100, 1000⟩

/-- Batch of five records with distinct dates, for the chunking witness. -/
def c3bars : List Bar :=
  [⟨"000001", "20240101", 10, 11, 9, 10, 100, 1000⟩,
   ⟨"000001", "20240102", 10, 11, 9, 10, 100, 1000⟩,
   ⟨"000001", "20240103", 10, 11, 9, 10, 100, 1000⟩,
   ⟨"000001", "20240104", 10, 11, 9, 10, 100, 1000⟩,
   ⟨"000001", "20240105", 10, 11, 9, 10, 100, 1000⟩]

/-- Stored row whose only defect is a negative volume. -/
def c4vrow : Row :=
  ⟨"000001", "20240101", some 10, some 10, some 10, some 10, some (-1), some 5, 0, 0⟩

/-- Stored row with `close = -1` (a non-positive price). -/
def c4crow : Row :=
  ⟨"000001", "20240101", some 10, some 10, some 5, some (-1), some 100, some 5, 0, 0⟩

/-- Stored row for instrument `c` dated far in the past, so the incremental
planner schedules a catch-up fetch for it. -/
def oldRow (c : String) : Row :=
  ⟨c, "20240101", some 10, some 10, some 10, some 10, some 100, some 5, 0, 0⟩

/-- Well-formed provider row for the given date, as tagged by the fetcher. -/
def c7ok (d : String) : RawRow :=
  ⟨.valid d, some "000001", .num 10, .num 10, .num 11, .num 9, .num 100, .num 1000⟩

/-- Provider row whose close (`收盘`) cell is missing. -/
def c7bad : RawRow :=
  ⟨.valid "20250105", some "000001", .num 10, .missing, .num 11, .num 9, .num 100, .num 1000⟩

/-- Ten provider rows: nine well-formed, one missing its close value. -/
def c7rows : List RawRow :=
  [c7ok "20250101", c7ok "20250102", c7ok "20250103", c7ok "20250104", c7bad,
   c7ok "20250106", c7ok "20250107", c7ok "20250108", c7ok "20250109", c7ok "20250110"]

/-- Provider that always answers one well-formed row, used by the
incremental-update scenarios. -/
def c5prov : String → String → String → ProviderOutcome :=
  fun _ _ _ => .returns (some ⟨true, [⟨.valid "20250110", none,
    .num 10, .num 10, .num 11, .num 9, .num 100, .num 1000⟩]⟩)

/-- Storage holding one instrument with a stale tail, marker absent. -/
def c5store : Store := ⟨[oldRow "000001"], none⟩

/-- Storage holding two instruments with stale tails. -/
def c9store : Store := ⟨[oldRow "000001", oldRow "000002"], none⟩

/-- Single healthy stored row, for the validator-totality witness. -/
def c10rows : List Row :=
  [⟨"000001", "20240101", some 10, some 10, some 10, some 10, some 100, some 5, 0, 0⟩]

/-- Records re-ingested for the same key with a corrected close. -/
def c8bar : Bar := ⟨"000001", "20240101", 10, 11, 9, 10, 100, 1000⟩

/-- Corrected record with the same `(instrument, trade date)` key. -/
def c8bar2 : Bar := ⟨"000001", "20240101", 10, 11, 9, 12, 100, 1000⟩

/-! ### Helper lemmas about the upsert store -/

theorem mem_eraseKey {tbl : List Row} {k : String × String} {r : Row} :
    r ∈ eraseKey tbl k ↔ r ∈ tbl ∧ rowKey r ≠ k := by
  simp [eraseKey, List.mem_filter]

theorem rowKey_mkRow (b : Bar) (now : Nat) : rowKey (mkRow b now) = barKey b := rfl

theorem keyMem_upsert {tbl : List Row} {b : Bar} {now : Nat} {k : String × String} :
    keyMem (upsertRow tbl b now) k ↔ k = barKey b ∨ keyMem tbl k := by
  constructor
  · rintro ⟨r, hr, hk⟩
    rcases List.mem_append.mp hr with h | h
    · exact Or.inr ⟨r, (mem_eraseKey.mp h).1, hk⟩
    · rw [List.mem_singleton] at h
      subst h
      exact Or.inl hk.symm
  · rintro (rfl | ⟨r, hr, hk⟩)
    · exact ⟨mkRow b now, List.mem_append.mpr (Or.inr (List.mem_singleton.mpr rfl)), rfl⟩
    · by_cases hbk : k = barKey b
      · exact ⟨mkRow b now, List.mem_append.mpr (Or.inr (List.mem_singleton.mpr rfl)), hbk.symm⟩
      · refine ⟨r, List.mem_append.mpr (Or.inl (mem_eraseKey.mpr ⟨hr, ?_⟩)), hk⟩
        rw [hk]; exact hbk

theorem nodupKeys_upsert {tbl : List Row} {b : Bar} {now : Nat} (h : NodupKeys tbl) :
    NodupKeys (upsertRow tbl b now) := by
  unfold NodupKeys upsertRow at *
  rw [List.map_append, List.nodup_append]
  refine ⟨((List.filter_sublist tbl).map rowKey).nodup h, List.nodup_singleton _, ?_⟩
  intro x hx
  rcases List.mem_map.mp hx with ⟨r, hr, rfl⟩
  have := (mem_eraseKey.mp hr).2
  simpa [rowKey_mkRow] using this

theorem findRow_eraseKey {tbl : List Row} {k k' : String × String} (h : k ≠ k') :
    findRow (eraseKey tbl k') k = findRow tbl k := by
  induction tbl with
  | nil => rfl
  | cons r rs ih =>
    unfold findRow eraseKey at *
    rw [List.filter_cons]
    by_cases hr : rowKey r = k'
    · have e1 : (decide (rowKey r ≠ k')) = false := by
        simp [hr]
      have e2 : (decide (rowKey r = k)) = false := by
        rw [decide_eq_false_iff_not, hr]
        intro hh; exact h hh.symm
      rw [e1]
      simp only [Bool.false_eq_true, if_false]
      simp only [List.find?_cons, e2]
      exact ih
    · have e1 : (decide (rowKey r ≠ k')) = true := by
        simp [hr]
      rw [e1]
      simp only [if_true]
      by_cases hk : rowKey r = k
      · have e2 : (decide (rowKey r = k)) = true := by simp [hk]
        simp only [List.find?_cons, e2]
      · have e2 : (decide (rowKey r = k)) = false := by simp [hk]
        simp only [List.find?_cons, e2]
        exact ih

theorem findRow_upsert {tbl : List Row} {b : Bar} {now : Nat} {k : String × String} :
    findRow (upsertRow tbl b now) k =
      if k = barKey b then some (mkRow b now) else findRow tbl k := by
  unfold findRow upsertRow
  rw [List.find?_append]
  by_cases hk : k = barKey b
  · have h1 : List.find? (fun r => decide (rowKey r = k)) (eraseKey tbl (barKey b)) = none := by
      apply List.find?_eq_none.mpr
      intro r hr
      have h2 := (mem_eraseKey.mp hr).2
      simp only [decide_eq_true_eq]
      rw [hk]; exact h2
    have h3 : List.find? (fun r => decide (rowKey r = k)) [mkRow b now] = some (mkRow b now) := by
      apply List.find?_cons_of_pos
      simp only [decide_eq_true_eq, rowKey_mkRow]
      exact hk.symm
    rw [h1, h3, Option.none_or, if_pos hk]
  · have h2 : List.find? (fun r => decide (rowKey r = k)) [mkRow b now] = none := by
      apply List.find?_eq_none.mpr
      intro r hr
      rw [List.mem_singleton] at hr
      subst hr
      simp only [decide_eq_true_eq, rowKey_mkRow]
      intro hh; exact hk hh.symm
    have h3 := @findRow_eraseKey tbl k (barKey b) hk
    unfold findRow at h3
    rw [h2, h3, Option.or_none, if_neg hk]

theorem eraseKey_of_not_mem {tbl : List Row} {k : String × String} (h : ¬ keyMem tbl k) :
    eraseKey tbl k = tbl := by
  apply List.filter_eq_self.mpr
  intro r hr
  simp only [decide_eq_true_eq]
  intro hk
  exact h ⟨r, hr, hk⟩

theorem length_eraseKey_of_mem {tbl : List Row} {k : String × String}
    (hnd : NodupKeys tbl) (hk : keyMem tbl k) :
    (eraseKey tbl k).length + 1 = tbl.length := by
  induction tbl with
  | nil => rcases hk with ⟨r, hr, _⟩; cases hr
  | cons r rs ih =>
    rw [NodupKeys, List.map_cons, List.nodup_cons] at hnd
    by_cases hr : rowKey r = k
    · have hrs : ¬ keyMem rs k := by
        rintro ⟨a, ha, hak⟩
        exact hnd.1 (hr ▸ hak ▸ List.mem_map_of_mem rowKey ha)
      have h4 : eraseKey rs k = rs := eraseKey_of_not_mem hrs
      unfold eraseKey at *
      rw [List.filter_cons]
      have e1 : (decide (rowKey r ≠ k)) = false := by simp [hr]
      rw [e1]
      simp only [Bool.false_eq_true, if_false]
      rw [h4, List.length_cons]
    · rcases hk with ⟨a, ha, hak⟩
      rcases List.mem_cons.mp ha with rfl | ha'
      · exact absurd hak hr
      · have hkrs : keyMem rs k := ⟨a, ha', hak⟩
        have h5 := ih hnd.2 hkrs
        unfold eraseKey at *
        rw [List.filter_cons]
        have e1 : (decide (rowKey r ≠ k)) = true := by simp [hr]
        rw [e1]
        simp only [if_true]
        rw [List.length_cons, List.length_cons, ← h5]

theorem length_upsert_of_mem {tbl : List Row} {b : Bar} {now : Nat}
    (hnd : NodupKeys tbl) (hk : keyMem tbl (barKey b)) :
    (upsertRow tbl b now).length = tbl.length := by
  unfold upsertRow
  rw [List.length_append, List.length_singleton]
  exact length_eraseKey_of_mem hnd hk

theorem applyBatch_nil {tbl : List Row} {now : Nat} : applyBatch tbl [] now = tbl := rfl

theorem applyBatch_cons {tbl : List Row} {b : Bar} {bs : List Bar} {now : Nat} :
    applyBatch tbl (b :: bs) now = applyBatch (upsertRow tbl b now) bs now := rfl

theorem applyBatch_append {tbl : List Row} {l1 l2 : List Bar} {now : Nat} :
    applyBatch tbl (l1 ++ l2) now = applyBatch (applyBatch tbl l1 now) l2 now :=
  List.foldl_append _ _ _ _

theorem keyMem_applyBatch_mono {batch : List Bar} {tbl : List Row} {now : Nat}
    {k : String × String} (h : keyMem tbl k) : keyMem (applyBatch tbl batch now) k := by
  induction batch generalizing tbl with
  | nil => exact h
  | cons b bs ih => exact ih (keyMem_upsert.mpr (Or.inr h))

theorem keyMem_applyBatch_of_mem {batch : List Bar} {tbl : List Row} {now : Nat}
    {b : Bar} (h : b ∈ batch) : keyMem (applyBatch tbl batch now) (barKey b) := by
  induction batch generalizing tbl with
  | nil => cases h
  | cons x xs ih =>
    rcases List.mem_cons.mp h with rfl | h'
    · rw [applyBatch_cons]
      exact keyMem_applyBatch_mono (keyMem_upsert.mpr (Or.inl rfl))
    · rw [applyBatch_cons]
      exact ih h'

theorem nodupKeys_applyBatch {batch : List Bar} {tbl : List Row} {now : Nat}
    (h : NodupKeys tbl) : NodupKeys (applyBatch tbl batch now) := by
  induction batch generalizing tbl with
  | nil => exact h
  | cons b bs ih => exact ih (nodupKeys_upsert h)

theorem length_applyBatch_of_all_mem {batch : List Bar} {tbl : List Row} {now : Nat}
    (hnd : NodupKeys tbl) (h : ∀ b ∈ batch, keyMem tbl (barKey b)) :
    (applyBatch tbl batch now).length = tbl.length := by
  induction batch generalizing tbl with
  | nil => rfl
  | cons b bs ih =>
    rw [applyBatch_cons]
    have h1 := @length_upsert_of_mem tbl b now hnd (h b (List.mem_cons_self b bs))
    rw [ih (nodupKeys_upsert hnd) fun b' hb' =>
      keyMem_upsert.mpr (Or.inr (h b' (List.mem_cons_of_mem b hb')))]
    exact h1

theorem findRow_applyBatch {batch : List Bar} {tbl : List Row} {now : Nat}
    {k : String × String} :
    findRow (applyBatch tbl batch now) k =
      match lastBarWithKey k batch with
      | some b => some (mkRow b now)
      | none => findRow tbl k := by
  induction batch generalizing tbl with
  | nil => rfl
  | cons b bs ih =>
    rw [applyBatch_cons, ih]
    cases h : lastBarWithKey k bs with
    | some x => simp [lastBarWithKey, h]
    | none =>
      simp only [lastBarWithKey, h]
      rw [findRow_upsert]
      by_cases hk : barKey b = k
      · simp [hk]
      · have hk' : ¬ k = barKey b := fun hh => hk hh.symm
        simp [hk, hk']

/-! ### Helper lemmas about the chunked commit loop -/

theorem chunksOfAux_flatten {n : Nat} (hn : 0 < n) :
    ∀ (fuel : Nat) (l : List Bar), l.length ≤ fuel → (chunksOfAux n fuel l).flatten = l := by
  intro fuel
  induction fuel with
  | zero =>
    intro l hl
    have h0 : l = [] := List.length_eq_zero.mp (Nat.le_zero.mp hl)
    subst h0
    rfl
  | succ f ih =>
    intro l hl
    cases l with
    | nil =>
      cases n with
      | zero => exact absurd hn (by omega)
      | succ m => rfl
    | cons x xs =>
      cases n with
      | zero => exact absurd hn (by omega)
      | succ m =>
        show (List.take (m + 1) (x :: xs) :: chunksOfAux (m + 1) f (List.drop (m + 1) (x :: xs))).flatten
          = x :: xs
        rw [List.flatten_cons, ih (List.drop (m + 1) (x :: xs)) ?hfuel]
        · exact List.take_append_drop (m + 1) (x :: xs)
        · rw [List.length_drop]
          simp only [List.length_cons] at hl ⊢
          omega

theorem chunksOf_flatten {n : Nat} {l : List Bar} (hn : 0 < n) :
    (chunksOf n l).flatten = l :=
  chunksOfAux_flatten hn l.length l le_rfl

theorem runChunks_noFail {now : Nat} {fails : Nat → Bool} :
    ∀ (cs : List (List Bar)) (i : Nat) (tbl : List Row),
      (∀ j, j < cs.length → fails (i + j) = false) →
      runChunks now fails cs i tbl = (applyBatch tbl cs.flatten now, true) := by
  intro cs
  induction cs with
  | nil => intro i tbl _; rfl
  | cons c cs' ih =>
    intro i tbl h
    have h0 : fails i = false := by
      have := h 0 (by simp)
      simpa using this
    show (if fails i then (tbl, false)
          else runChunks now fails cs' (i + 1) (applyBatch tbl c now)) = _
    rw [h0]
    simp only [Bool.false_eq_true, if_false]
    rw [ih (i + 1) (applyBatch tbl c now) ?hshift]
    · rw [List.flatten_cons, applyBatch_append]
    · intro j hj
      have := h (j + 1) (by simpa using Nat.succ_lt_succ hj)
      rw [← this]
      congr 1
      omega

theorem runChunks_failAt {now : Nat} {fails : Nat → Bool} :
    ∀ (k : Nat) (cs : List (List Bar)) (i : Nat) (tbl : List Row),
      (∀ j, j < k → fails (i + j) = false) → fails (i + k) = true → k < cs.length →
      runChunks now fails cs i tbl = (applyBatch tbl ((cs.take k).flatten) now, false) := by
  intro k
  induction k with
  | zero =>
    intro cs i tbl _ hk hlen
    cases cs with
    | nil => simp at hlen
    | cons c cs' =>
      have h0 : fails i = true := by simpa using hk
      show (if fails i then (tbl, false)
            else runChunks now fails cs' (i + 1) (applyBatch tbl c now)) = _
      rw [h0]
      rfl
  | succ kk ih =>
    intro cs i tbl h0 hk hlen
    cases cs with
    | nil => simp at hlen
    | cons c cs' =>
      have hf0 : fails i = false := by
        have := h0 0 (Nat.succ_pos kk)
        simpa using this
      show (if fails i then (tbl, false)
            else runChunks now fails cs' (i + 1) (applyBatch tbl c now)) = _
      rw [hf0]
      simp only [Bool.false_eq_true, if_false]
      rw [ih cs' (i + 1) (applyBatch tbl c now) ?hsh ?hkk ?hln]
      · rw [List.take_succ_cons, List.flatten_cons, applyBatch_append]
      · intro j hj
        have := h0 (j + 1) (Nat.succ_lt_succ hj)
        rw [← this]
        congr 1
        omega
      · rw [← hk]
        congr 1
        omega
      · simpa using Nat.lt_of_succ_lt_succ (Nat.succ_lt_succ (Nat.lt_of_succ_lt_succ (by simpa using hlen)))

theorem save_data_noFail {now bs : Nat} {bars : List Bar} {st : Store} (hbs : 0 < bs)
    (hne : bars ≠ []) :
    save_data now (fun _ => false) bs bars st =
      ({ table := applyBatch st.table bars now, marker := some (now, bars.length) }, true) := by
  unfold save_data
  rw [if_neg (by simpa using hne)]
  rw [runChunks_noFail (chunksOf bs bars) 0 st.table (fun _ _ => rfl)]
  rw [chunksOf_flatten hbs]

/-! ### Helper lemmas about the stored-maximum date -/

theorem strLt_iff {a b : String} : strLt a b = true ↔ a < b := by
  unfold strLt
  rw [decide_eq_true_eq, String.lt_iff_toList_lt]
  exact Iff.rfl

theorem not_lt_of_strLt_false {a b : String} (h : strLt a b = false) : ¬ a < b := by
  intro hlt
  rw [(strLt_iff).mpr hlt] at h
  cases h

theorem maxDate_eq_none_iff {l : List Row} : maxDate l = none ↔ l = [] := by
  cases l with
  | nil => simp [maxDate]
  | cons r rs =>
    simp only [maxDate]
    cases maxDate rs <;> simp

theorem maxDate_mem {l : List Row} {d : String} (h : maxDate l = some d) :
    ∃ r ∈ l, r.trade_date = d := by
  induction l with
  | nil => cases h
  | cons r rs ih =>
    cases hm : maxDate rs with
    | none =>
      simp only [maxDate, hm] at h
      exact ⟨r, List.mem_cons_self r rs, Option.some_inj.mp h⟩
    | some d' =>
      simp only [maxDate, hm] at h
      cases hlt : strLt d' r.trade_date with
      | true =>
        rw [hlt] at h
        simp only [if_true] at h
        exact ⟨r, List.mem_cons_self r rs, Option.some_inj.mp h⟩
      | false =>
        rw [hlt] at h
        simp only [Bool.false_eq_true, if_false] at h
        have hdd : d' = d := Option.some_inj.mp h
        subst hdd
        rcases ih hm with ⟨a, ha, hd⟩
        exact ⟨a, List.mem_cons_of_mem r ha, hd⟩

theorem maxDate_ub {l : List Row} :
    ∀ {d : String}, maxDate l = some d → ∀ r ∈ l, r.trade_date ≤ d := by
  induction l with
  | nil => intro d h r hr; cases hr
  | cons r rs ih =>
    intro d h a ha
    cases hm : maxDate rs with
    | none =>
      simp only [maxDate, hm] at h
      have hrs : rs = [] := maxDate_eq_none_iff.mp hm
      subst hrs
      rcases List.mem_cons.mp ha with rfl | h2
      · exact le_of_eq (Option.some_inj.mp h)
      · cases h2
    | some d' =>
      simp only [maxDate, hm] at h
      rcases List.mem_cons.mp ha with rfl | h2
      · cases hlt : strLt d' a.trade_date with
        | true =>
          rw [hlt] at h
          simp only [if_true] at h
          exact le_of_eq (Option.some_inj.mp h)
        | false =>
          rw [hlt] at h
          simp only [Bool.false_eq_true, if_false] at h
          exact le_trans (le_of_not_lt (not_lt_of_strLt_false hlt))
            (le_of_eq (Option.some_inj.mp h))
      · have hle := ih hm a h2
        cases hlt : strLt d' r.trade_date with
        | true =>
          rw [hlt] at h
          simp only [if_true] at h
          exact le_trans hle (le_trans (le_of_lt (strLt_iff.mp hlt))
            (le_of_eq (Option.some_inj.mp h)))
        | false =>
          rw [hlt] at h
          simp only [Bool.false_eq_true, if_false] at h
          exact le_trans hle (le_of_eq (Option.some_inj.mp h))

theorem latest_none_iff {tbl : List Row} {code : String} :
    get_latest_date_for_stock tbl code = none ↔ ∀ r ∈ tbl, r.ts_code ≠ code := by
  unfold get_latest_date_for_stock
  rw [maxDate_eq_none_iff, List.filter_eq_nil_iff]
  constructor
  · intro h r hr hc
    exact h r hr (by simp [hc])
  · intro h r hr hc
    exact h r hr (by simpa using hc)

theorem latest_spec {tbl : List Row} {code : String} {d : String}
    (h : get_latest_date_for_stock tbl code = some d) :
    (∃ r ∈ tbl, r.ts_code = code ∧ r.trade_date = d)
    ∧ (∀ r ∈ tbl, r.ts_code = code → r.trade_date ≤ d) := by
  unfold get_latest_date_for_stock at h
  constructor
  · rcases maxDate_mem h with ⟨r, hr, hd⟩
    have := List.mem_filter.mp hr
    exact ⟨r, this.1, by simpa using this.2, hd⟩
  · intro r hr hc
    exact maxDate_ub h r (List.mem_filter.mpr ⟨hr, by simp [hc]⟩)

/-! ### Claim theorems -/

/-- C1: Upsert is idempotent.  For every storage state satisfying the
key-uniqueness invariant and every batch of well-formed records, saving the
batch through `save_data` (positive batch size, all chunk commits
succeeding) and saving the exact same batch again leaves the table with the
same row count and, for every key, the same timestamp-free field values as
saving it once; and an upsert whose key is already stored never adds a row. -/
theorem c1_upsert_idempotent (st : Store) (batch : List Bar) (bs now1 now2 : Nat)
    (hbs : 0 < bs) (hnd : NodupKeys st.table) :
    ((save_data now2 (fun _ => false) bs batch
        (save_data now1 (fun _ => false) bs batch st).1).1.table.length
      = (save_data now1 (fun _ => false) bs batch st).1.table.length)
    ∧ (∀ k : String × String,
        Option.map dataOf (findRow (save_data now2 (fun _ => false) bs batch
            (save_data now1 (fun _ => false) bs batch st).1).1.table k)
          = Option.map dataOf
              (findRow (save_data now1 (fun _ => false) bs batch st).1.table k))
    ∧ (∀ (b : Bar) (n : Nat), keyMem st.table (barKey b) →
        (upsertRow st.table b n).length = st.table.length) := by
  by_cases hb : batch = []
  · subst hb
    refine ⟨rfl, fun k => rfl, fun b n hk => length_upsert_of_mem hnd hk⟩
  · have e1 := @save_data_noFail now1 bs batch st hbs hb
    have e2 := @save_data_noFail now2 bs batch
      ((save_data now1 (fun _ => false) bs batch st).1) hbs hb
    rw [e1] at e2 ⊢
    rw [e2]
    have hnd1 : NodupKeys (applyBatch st.table batch now1) := nodupKeys_applyBatch hnd
    refine ⟨?_, ?_, fun b n hk => length_upsert_of_mem hnd hk⟩
    · exact length_applyBatch_of_all_mem hnd1
        (fun b hb' => keyMem_applyBatch_of_mem hb')
    · intro k
      rw [@findRow_applyBatch batch (applyBatch st.table batch now1) now2 k,
        @findRow_applyBatch batch st.table now1 k]
      cases hL : lastBarWithKey k batch with
      | some b => rfl
      | none => rfl

/-- C1 witness: a concrete one-record batch saved twice into an empty store
keeps the single row. -/
theorem c1_witness :
    (save_data 2 (fun _ => false) 2 [c1bar]
        (save_data 1 (fun _ => false) 2 [c1bar] ⟨[], none⟩).1).1.table.length
      = (save_data 1 (fun _ => false) 2 [c1bar] ⟨[], none⟩).1.table.length :=
  (c1_upsert_idempotent ⟨[], none⟩ [c1bar] 2 1 2 (by decide) (by decide)).1

/-- C2: The incremental planner implements the three-case window policy.
With `latest` the stored maximum trade date for the instrument (`none` when
nothing is stored, and genuinely the maximum when `some`): no stored data
fetches `[start_date, end_date]`; `latest < start_date` fetches
`[latest, end_date]` starting at `latest` itself; `latest ≥ start_date`
skips the instrument. -/
theorem c2_incremental_window (tbl : List Row) (code start_date end_date : String) :
    (get_latest_date_for_stock tbl code = none →
        (∀ r ∈ tbl, r.ts_code ≠ code)
        ∧ plan_fetch_window (get_latest_date_for_stock tbl code) start_date end_date
            = some (start_date, end_date))
    ∧ (∀ d, get_latest_date_for_stock tbl code = some d →
        ((∃ r ∈ tbl, r.ts_code = code ∧ r.trade_date = d)
          ∧ (∀ r ∈ tbl, r.ts_code = code → r.trade_date ≤ d))
        ∧ (d < start_date →
            plan_fetch_window (get_latest_date_for_stock tbl code) start_date end_date
              = some (d, end_date))
        ∧ (¬ d < start_date →
            plan_fetch_window (get_latest_date_for_stock tbl code) start_date end_date
              = none)) := by
  constructor
  · intro h
    refine ⟨latest_none_iff.mp h, ?_⟩
    rw [h]
    rfl
  · intro d h
    refine ⟨latest_spec h, ?_, ?_⟩
    · intro hlt
      rw [h]
      show (if strLt d start_date then some (d, end_date) else none) = some (d, end_date)
      rw [strLt_iff.mpr hlt]
      rfl
    · intro hlt
      rw [h]
      show (if strLt d start_date then some (d, end_date) else none) = none
      have hf : strLt d start_date = false := by
        cases hs : strLt d start_date with
        | false => rfl
        | true => exact absurd (strLt_iff.mp hs) hlt
      rw [hf]
      rfl

/-- C2 witness: the three cases at concrete inputs — empty storage, a stale
stored tail, and an up-to-date stored tail. -/
theorem c2_witness :
    (plan_fetch_window (get_latest_date_for_stock [] "000001") "20250101" "20251012"
      = some ("20250101", "20251012"))
    ∧ (plan_fetch_window (get_latest_date_for_stock [oldRow "000001"] "000001")
        "20250101" "20251012" = some ("20240101", "20251012"))
    ∧ (plan_fetch_window (get_latest_date_for_stock [oldRow "000001"] "000001")
        "20231201" "20251012" = none) :=
  ⟨((c2_incremental_window [] "000001" "20250101" "20251012").1 rfl).2,
   (((c2_incremental_window [oldRow "000001"] "000001" "20250101" "20251012").2
      "20240101" (by decide)).2.1
      (by rw [String.lt_iff_toList_lt]; decide)),
   (((c2_incremental_window [oldRow "000001"] "000001" "20231201" "20251012").2
      "20240101" (by decide)).2.2
      (by rw [String.lt_iff_toList_lt]; decide))⟩

/-- C3 counterexample to the claim as stated: for the empty batch — a batch
with zero chunks, all of which trivially succeed — `save_data` returns
normally yet never writes the BackupMarker, so the marker is not written
"exactly when all chunks succeed" over *every* batch. -/
theorem c3_empty_batch_no_marker :
    (save_data 5 (fun _ => false) 1000 [] (⟨[], none⟩ : Store)).2 = true
    ∧ (save_data 5 (fun _ => false) 1000 [] (⟨[], none⟩ : Store)).1.marker = none := by
  exact ⟨rfl, rfl⟩

/-- C3 amended: for every nonempty batch and positive batch size, the
records are chunked; if every commit before chunk `k` succeeds and chunk `k`
fails, exactly the first `k` chunks are persisted (each of their records
retrievable by key), the marker is untouched, and the exception propagates
(`false`); when every chunk succeeds the full batch is applied and the
marker is overwritten with the timestamp and total record count.  An empty
batch returns early and writes no marker. -/
theorem c3_chunked_durability (st : Store) (bars : List Bar) (bs k now : Nat)
    (fails : Nat → Bool) (hne : bars ≠ []) (hbs : 0 < bs)
    (hpre : ∀ j, j < k → fails j = false) (hk : fails k = true)
    (hlt : k < (chunksOf bs bars).length) :
    (save_data now fails bs bars st
      = ({ table := applyBatch st.table (((chunksOf bs bars).take k).flatten) now,
           marker := st.marker }, false))
    ∧ (∀ b ∈ ((chunksOf bs bars).take k).flatten,
        keyMem (save_data now fails bs bars st).1.table (barKey b))
    ∧ (∀ g : Nat → Bool, (∀ j, j < (chunksOf bs bars).length → g j = false) →
        save_data now g bs bars st
          = ({ table := applyBatch st.table bars now,
               marker := some (now, bars.length) }, true)) := by
  have hmain : save_data now fails bs bars st
      = ({ table := applyBatch st.table (((chunksOf bs bars).take k).flatten) now,
           marker := st.marker }, false) := by
    unfold save_data
    rw [if_neg (by simpa using hne)]
    rw [runChunks_failAt k (chunksOf bs bars) 0 st.table
      (fun j hj => by simpa using hpre j hj) (by simpa using hk) hlt]
  refine ⟨hmain, ?_, ?_⟩
  · intro b hb
    rw [hmain]
    exact keyMem_applyBatch_of_mem hb
  · intro g hg
    unfold save_data
    rw [if_neg (by simpa using hne)]
    rw [runChunks_noFail (chunksOf bs bars) 0 st.table
      (fun j hj => by simpa using hg j hj)]
    rw [chunksOf_flatten hbs]

/-- C3 witness: five records, batch size 2, the third chunk (index 2)
failing — the four records of the first two chunks stay persisted, the
marker stays unwritten, and the failure is reported. -/
theorem c3_witness :
    (save_data 7 (fun i => decide (i = 2)) 2 c3bars (⟨[], none⟩ : Store)
      = ({ table := applyBatch [] (((chunksOf 2 c3bars).take 2).flatten) 7,
           marker := none }, false))
    ∧ (save_data 7 (fun i => decide (i = 2)) 2 c3bars (⟨[], none⟩ : Store)).1.table.length = 4 :=
  ⟨(c3_chunked_durability ⟨[], none⟩ c3bars 2 2 7 (fun i => decide (i = 2))
      (by decide) (by decide) (by decide) (by decide) (by decide)).1,
   by decide⟩

/-- C8: evaluation at the failing input.  A record first ingested at time 1
and re-ingested (same key, corrected close) at time 2 ends with
`created_at = 2`: the `INSERT OR REPLACE` deletes the old row and inserts a
fresh one whose `created_at` takes its column default, so the creation
timestamp is **not** preserved — while the data fields and `updated_at` are
indeed overwritten as the claim says. -/
theorem c8_created_at_reset :
    (Option.map (fun r => r.created_at)
      (findRow ((save_data 2 (fun _ => false) 1000 [c8bar2]
          (save_data 1 (fun _ => false) 1000 [c8bar] ⟨[], none⟩).1).1.table)
        ("000001", "20240101")) = some 2)
    ∧ (Option.map (fun r => r.created_at)
      (findRow ((save_data 1 (fun _ => false) 1000 [c8bar] ⟨[], none⟩).1.table)
        ("000001", "20240101")) = some 1)
    ∧ (2 : Nat) ≠ 1
    ∧ (Option.map dataOf
      (findRow ((save_data 2 (fun _ => false) 1000 [c8bar2]
          (save_data 1 (fun _ => false) 1000 [c8bar] ⟨[], none⟩).1).1.table)
        ("000001", "20240101"))
      = some ("000001", "20240101", some 10, some 11, some 9, some 12, some 100, some 1000))
    ∧ (Option.map (fun r => r.updated_at)
      (findRow ((save_data 2 (fun _ => false) 1000 [c8bar2]
          (save_data 1 (fun _ => false) 1000 [c8bar] ⟨[], none⟩).1).1.table)
        ("000001", "20240101")) = some 2) := by
  refine ⟨rfl, rfl, by decide, rfl, rfl⟩

/-! ### Helper lemma: the statistics step always raises on nonempty data -/

theorem get_detailed_statistics_raises {rows : List Row} (h : rows ≠ []) :
    get_detailed_statistics rows = Except.error "KeyError: total_records" := by
  have hd : 0 < ((rows.map fun r => r.trade_date).dedup).length := by
    cases rows with
    | nil => exact absurd rfl h
    | cons r rs =>
      have hmem : r.trade_date ∈ (List.map (fun r => r.trade_date) (r :: rs)).dedup := by
        rw [List.mem_dedup]
        exact List.mem_map_of_mem _ (List.mem_cons_self r rs)
      exact List.length_pos.mpr (List.ne_nil_of_mem hmem)
  unfold get_detailed_statistics
  rw [if_pos hd]

/-- C4: evaluation at the failing input.  On the one-row dataset whose only
defect is `volume = -1` — where the claim requires `is_valid = true` — the
validator returns `is_valid = false`: its statistics step always raises
`KeyError` (`get_detailed_statistics` reads a key its local dict never
sets), so the catch-all fails every nonempty dataset.  The severity
machinery itself behaves as claimed: `volume = -1` yields only the
non-severe `negVolume` warning, while `close = -1` yields the severe
blocking `nonPositivePrice` finding in the errors list. -/
theorem c4_severity_eval :
    ((validate_data true true [c4vrow] "20251012" none).is_valid = false
      ∧ (validate_data true true [c4vrow] "20251012" none).errors
          = [Finding.checkFailed "KeyError: total_records"]
      ∧ (validate_data true true [c4vrow] "20251012" none).warnings
          = [Finding.negVolume 1, Finding.lowRecordStocks 1]
      ∧ (Finding.negVolume 1).severe = false)
    ∧ ((validate_data true true [c4crow] "20251012" none).is_valid = false
      ∧ (validate_data true true [c4crow] "20251012" none).errors
          = [Finding.nonPositivePrice 1, Finding.checkFailed "KeyError: total_records"]
      ∧ (Finding.nonPositivePrice 1).severe = true) := by
  refine ⟨⟨rfl, by decide, by decide, rfl⟩, ⟨rfl, by decide, rfl⟩⟩

/-- C10: the validator is total at its public interface and converts any
internal-check exception into a returned report.  For every nonempty stored
dataset: an exception injected into the integrity, correctness or
consistency check — and the statistics step's own unconditional `KeyError` —
each produce a report (never a raise) with `is_valid = false`, the
`checkFailed` message appended to the errors accumulated so far, and the
warnings and statistics accumulated before the exception preserved. -/
theorem c10_validator_total (rows : List Row) (today : String) (hne : rows ≠ []) :
    (validate_data true true rows today (some FaultAt.integrity)
      = { is_valid := false, errors := [Finding.checkFailed "integrity"],
          warnings := [], statistics := { total_records := some rows.length } })
    ∧ (validate_data true true rows today (some FaultAt.correctness)
      = { is_valid := false, errors := [Finding.checkFailed "correctness"],
          warnings := check_data_integrity rows,
          statistics := { total_records := some rows.length } })
    ∧ (validate_data true true rows today (some FaultAt.consistency)
      = { is_valid := false,
          errors := (check_data_correctness rows).filter Finding.severe
            ++ [Finding.checkFailed "consistency"],
          warnings := check_data_integrity rows ++ check_data_correctness rows,
          statistics := { total_records := some rows.length } })
    ∧ (validate_data true true rows today none
      = { is_valid := false,
          errors := (check_data_correctness rows).filter Finding.severe
            ++ [Finding.checkFailed "KeyError: total_records"],
          warnings := check_data_integrity rows ++ check_data_correctness rows
            ++ check_data_consistency rows today,
          statistics := { total_records := some rows.length } }) := by
  obtain ⟨r0, rs0, rfl⟩ : ∃ a l, rows = a :: l := by
    cases rows with
    | nil => exact absurd rfl hne
    | cons a l => exact ⟨a, l, rfl⟩
  refine ⟨rfl, rfl, rfl, ?_⟩
  have hr := @get_detailed_statistics_raises (r0 :: rs0) (List.cons_ne_nil r0 rs0)
  unfold validate_data
  rw [hr]
  rfl

/-- C10 witness: the injected-integrity-fault case at a concrete one-row
store. -/
theorem c10_witness :
    validate_data true true c10rows "20251012" (some FaultAt.integrity)
      = { is_valid := false, errors := [Finding.checkFailed "integrity"],
          warnings := [], statistics := { total_records := some 1 } } :=
  (c10_validator_total c10rows "20251012" (by decide)).1

/-- C5 counterexample to the claim as stated: in a run whose incremental
update collects records and whose storage commit fails (a
StorageWriteFailed), `update_incremental_data` propagates the exception and
`daily_job`'s single `try` jumps to its `except` before reaching
`validate_data` — the job finishes without ever invoking the validator. -/
theorem c5_validator_skipped :
    (update_incremental_data c5prov true 7 (fun _ => true) c5store
        "20250101" "20250112").outcome = Except.error ()
    ∧ (daily_job c5prov true true 7 (fun _ => true) c5store
        "20250101" "20250112" "20250112").1 = none := by
  exact ⟨rfl, rfl⟩

/-- C5 amended: the daily job itself always completes (it catches every
exception of the update step), and it runs the validator exactly when the
incremental update step returns instead of raising; when the update raises
(e.g. a storage write failure) the job logs and finishes with no validation
report. -/
theorem c5_job_completes (provider : String → String → String → ProviderOutcome)
    (dbE tbE : Bool) (now : Nat) (sf : Nat → Bool) (st : Store) (sd ed td : String) :
    (∀ b, (update_incremental_data provider dbE now sf st sd ed).outcome = Except.ok b →
      (daily_job provider dbE tbE now sf st sd ed td).1
        = some (validate_data dbE tbE
            (update_incremental_data provider dbE now sf st sd ed).st.table td none))
    ∧ (∀ e : Unit,
        (update_incremental_data provider dbE now sf st sd ed).outcome = Except.error e →
      (daily_job provider dbE tbE now sf st sd ed td).1 = none) := by
  constructor
  · intro b h
    simp only [daily_job]
    rw [h]
  · intro e h
    simp only [daily_job]
    rw [h]

/-- C5 witness: with every chunk commit succeeding, the same concrete run
does produce the validation report. -/
theorem c5_witness :
    (daily_job c5prov true true 7 (fun _ => false) c5store
        "20250101" "20250112" "20250112").1
      = some (validate_data true true
          (update_incremental_data c5prov true 7 (fun _ => false) c5store
            "20250101" "20250112").st.table "20250112" none) :=
  (c5_job_completes c5prov true true 7 (fun _ => false) c5store
    "20250101" "20250112" "20250112").1 true rfl

/-- C6 counterexample to the claim as stated: a transport/timeout error of
the provider call does **not** surface as a distinct FetchFailed error —
`fetch_stock_daily_data` catches it and returns `None`, the very value that
also encodes "no data in range", so the two outcomes are indistinguishable
to the caller. -/
theorem c6_outcomes_indistinct :
    fetch_stock_daily_data "000001" (ProviderOutcome.throws "connection timeout") = none
    ∧ fetch_stock_daily_data "000001" (ProviderOutcome.returns none) = none
    ∧ fetch_stock_daily_data "000001" (ProviderOutcome.throws "connection timeout")
        = fetch_stock_daily_data "000001" (ProviderOutcome.returns none) := by
  exact ⟨rfl, rfl, rfl⟩

/-- C6 amended: for every instrument and date range, the fetch returns
`none` when the instrument has no data in range, and it also returns `none`
— after catching and logging the exception — when the underlying provider
call raises a transport or timeout error; no error outcome distinct from
the no-data outcome exists. -/
theorem c6_fetch_failure_swallowed (code msg : String) :
    fetch_stock_daily_data code (ProviderOutcome.throws msg) = none
    ∧ fetch_stock_daily_data code (ProviderOutcome.returns none) = none
    ∧ (∀ t : ProviderTable, t.rows = [] →
        fetch_stock_daily_data code (ProviderOutcome.returns (some t)) = none) := by
  refine ⟨rfl, rfl, ?_⟩
  intro t ht
  obtain ⟨cc, trows⟩ := t
  change trows = [] at ht
  subst ht
  rfl

/-- C6 amended witness: the empty-table case at a concrete input. -/
theorem c6_witness :
    fetch_stock_daily_data "000001" (ProviderOutcome.returns (some ⟨true, []⟩)) = none :=
  (c6_fetch_failure_swallowed "000001" "x").2.2 ⟨true, []⟩ rfl

/-! ### Helper lemma for the formatter -/

theorem formatRow_ok {r : RawRow} (h : r.riqi ≠ DateCell.invalid) :
    formatRow r = Except.ok (formatSpecRow r) := by
  obtain ⟨rq, g, k1, k2, k3, k4, k5, k6⟩ := r
  cases rq with
  | invalid => exact absurd rfl h
  | missing => rfl
  | valid dd =>
    cases g <;> cases k1 <;> cases k2 <;> cases k3 <;> cases k4 <;> cases k5 <;> cases k6 <;> rfl

/-- C7: rejection isolation in the formatter.  For every raw table whose
date cells are provider dates (parseable or absent — an unparseable date
would make the whole call raise, which is outside this claim), the
normalization returns — with no error raised — exactly the
specification-side result: it drops exactly the rows in which some required
field is missing, fails numeric coercion, or is null after coercion, and
keeps all other rows. -/
theorem c7_rejection_isolation (rows : List RawRow)
    (hd : ∀ r ∈ rows, r.riqi ≠ DateCell.invalid) :
    format_data_for_storage rows = Except.ok (formatSpec rows) := by
  induction rows with
  | nil => rfl
  | cons r rs ih =>
    have h1 := formatRow_ok (hd r (List.mem_cons_self r rs))
    have h2 := ih (fun a ha => hd a (List.mem_cons_of_mem r ha))
    simp only [format_data_for_storage]
    rw [h1, h2]
    unfold formatSpec
    rw [List.filterMap_cons]
    cases formatSpecRow r with
    | none => rfl
    | some b => rfl

/-- C7 witness: ten rows of which one misses its close value — the call
succeeds and yields exactly nine formatted records. -/
theorem c7_witness :
    format_data_for_storage c7rows = Except.ok (formatSpec c7rows)
    ∧ (formatSpec c7rows).length = 9 :=
  ⟨c7_rejection_isolation c7rows (by decide), by decide⟩

/-- C9 counterexample to the claim as stated: a concrete daily incremental
update over two instruments that both need fetching issues the two fetches
back to back — its event trace contains no sleep at all, so no inter-request
delay separates one instrument's fetch from the next in the incremental
loop. -/
theorem c9_incremental_fetches_without_delay :
    (update_incremental_data c5prov true 7 (fun _ => false) c9store
        "20250101" "20250112").events
      = [Ev.fetchEv "000001", Ev.fetchEv "000002"]
    ∧ ((update_incremental_data c5prov true 7 (fun _ => false) c9store
        "20250101" "20250112").events.filter Ev.isSleep) = [] := by
  exact ⟨rfl, rfl⟩

/-- C9 amended: the configurable inter-request delay is applied between
instrument fetches only in the bootstrap full fetch (`fetch_all_stock_data`,
whenever `delay > 0`); the daily incremental update loop applies no delay —
its event trace never contains a sleep. -/
theorem c9_delay_only_in_full_fetch :
    (∀ (provider : String → ProviderOutcome) (delay : ℚ) (codes : List String),
      0 < delay →
      (fetch_all_stock_data provider delay codes).2
        = codes.flatMap (fun c => [Ev.fetchEv c, Ev.sleepEv delay]))
    ∧ (∀ (provider : String → String → String → ProviderOutcome) (tbl : List Row)
        (sd ed : String) (codes : List String),
        ((updLoop provider tbl sd ed codes).2.filter Ev.isSleep) = []) := by
  constructor
  · intro provider delay codes hpos
    induction codes with
    | nil => rfl
    | cons c cs ih =>
      simp only [fetch_all_stock_data]
      rw [if_pos hpos, ih, List.flatMap_cons]
      rfl
  · intro provider tbl sd ed codes
    induction codes with
    | nil => rfl
    | cons c cs ih =>
      simp only [updLoop]
      cases hp : plan_fetch_window (get_latest_date_for_stock tbl c) sd ed with
      | none => exact ih
      | some w =>
        obtain ⟨fs, fe⟩ := w
        simp only [List.filter_cons]
        simpa [Ev.isSleep] using ih

/-- C9 witness: the full fetch over two instruments with delay 1 sleeps
after each fetch, while the incremental loop over the same two instruments
never sleeps. -/
theorem c9_witness :
    (fetch_all_stock_data (fun _ => ProviderOutcome.returns none) 1
        ["000001", "000002"]).2
      = [Ev.fetchEv "000001", Ev.sleepEv 1, Ev.fetchEv "000002", Ev.sleepEv 1]
    ∧ ((updLoop c5prov c9store.table "20250101" "20250112"
        ["000001", "000002"]).2.filter Ev.isSleep) = [] := by
  constructor
  · have h := c9_delay_only_in_full_fetch.1 (fun _ => ProviderOutcome.returns none) 1
      ["000001", "000002"] (by norm_num)
    rw [h]
    rfl
  · exact c9_delay_only_in_full_fetch.2 c5prov c9store.table "20250101" "20250112"
      ["000001", "000002"]

end StockPipeline
